import Mathlib

/-!
Shallow embedding of the `fcp` crate (src/lib.rs): a codec for the FCP
line-oriented ASCII request protocol.  Byte slices `&[u8]` are modelled as
`List Nat`; `core::result::Result<T, Error>` as the inductive `RustResult`.
Rust's integer `FromStr` (i.e. `from_str_radix` at radix 10) is modelled
byte-for-byte, with `Nat`/`Int` arithmetic and explicit range checks in
place of the machine types' checked arithmetic.
-/

namespace Fcp

/-- Bytes of an ASCII string literal (each char is one byte for ASCII). -/
def asciiBytes (s : String) : List Nat :=
  s.data.map Char.toNat

/-- `enum Error` from src/lib.rs. -/
inductive Error
  | UnknownRequestType
  | InvalidValue
  | MissingValue
  | Empty
deriving DecidableEq, Repr

/-- `core::result::Result<T, fcp::Error>`. -/
inductive RustResult (α : Type)
  | ok (v : α)
  | err (e : Error)
deriving DecidableEq, Repr

/-- `Result::map`. -/
def RustResult.map {α β : Type} (f : α → β) : RustResult α → RustResult β
  | .ok v => .ok (f v)
  | .err e => .err e


/-! ## Rust integer parsing (`core::num::from_str_radix`, radix 10)

`SetRequest::parse` / `AdjRequest::parse` call `str::parse::<u16/u8/i16/i8>`
on the byte tail after the `v`/`%` prefix (via `from_utf8_unchecked`, which
does not alter the bytes).  `from_str_radix` itself works on the raw bytes:
optional single leading `+` (or `-` for signed types), then a run of ASCII
decimal digits folded left with checked multiply/add (subtract for a
negative sign).  Any invalid digit or range overflow is an error, here
`none`. -/

/-- `(c as char).to_digit(10)` on a byte `c`. -/
def digitVal? (c : Nat) : Option Nat :=
  if 48 ≤ c ∧ c ≤ 57 then some (c - 48) else none

/-- The digit-accumulation loop of `from_str_radix`: for each byte, decode
the digit, `checked_mul` the accumulator by 10, then `checked_add`
(positive) or `checked_sub` (negative) the digit, failing on any value
outside `[lo, hi]` (the machine type's range). -/
def goI (lo hi : Int) (isPositive : Bool) : List Nat → Int → Option Int
  | [], acc => some acc
  | c :: rest, acc =>
    match digitVal? c with
    | none => none
    | some d =>
      let m := acc * 10
      if m < lo ∨ hi < m then none
      else
        let r := if isPositive then m + (d : Int) else m - (d : Int)
        if r < lo ∨ hi < r then none
        else goI lo hi isPositive rest r

/-- `from_str_radix(src, 10)` for an integer type with range `[lo, hi]`;
`signed` is `is_signed_ty`.  Empty input errors; a lone sign errors; a
leading `+` is skipped; a leading `-` is skipped (negative) only for
signed types, otherwise it flows into the digit loop and fails there. -/
def fromStrRadix10 (signed : Bool) (lo hi : Int) (src : List Nat) : Option Int :=
  match src with
  | [] => none
  | c :: rest =>
    if (c = 43 ∨ c = 45) ∧ rest = [] then none
    else if c = 43 then goI lo hi true rest 0
    else if c = 45 ∧ signed then goI lo hi false rest 0
    else goI lo hi true (c :: rest) 0

/-! ## The fcp data model -/

/-- `enum GetRequest`. -/
inductive GetRequest
  | All
  | Config
  | Percentage
  | Temperature
  | Voltage
deriving DecidableEq, Repr

/-- `GetRequest::parse` — the byte value must exactly equal one of the
five tokens; anything else is `InvalidValue`. -/
def GetRequest.parse (val : List Nat) : RustResult GetRequest :=
  if val = asciiBytes "all" then .ok .All
  else if val = asciiBytes "%" then .ok .Percentage
  else if val = asciiBytes "cfg" then .ok .Config
  else if val = asciiBytes "volt" then .ok .Voltage
  else if val = asciiBytes "temp" then .ok .Temperature
  else .err .InvalidValue

/-- `GetRequest::val_str`. -/
def GetRequest.val_str : GetRequest → String
  | .All => "all"
  | .Voltage => "volt"
  | .Config => "cfg"
  | .Temperature => "temp"
  | .Percentage => "%"

/-- `enum SetRequest`.  The `u16`/`u8` payloads are `Nat`s; values a Rust
program can construct satisfy `wf` below. -/
inductive SetRequest
  | Auto
  | Voltage (v : Nat)
  | Percentage (v : Nat)
deriving DecidableEq, Repr

/-- `SetRequest::parse`.  `val[0]` dispatch: `b'a'` with length exactly 1
is `Auto`; `b'v'` parses the tail as `u16`; `b'%'` as `u8`; anything else
is `InvalidValue`.  Empty value is `MissingValue`. -/
def SetRequest.parse (val : List Nat) : RustResult SetRequest :=
  match val with
  | [] => .err .MissingValue
  | b :: rest =>
    if b = 97 ∧ rest = [] then .ok .Auto
    else if b = 118 then
      match fromStrRadix10 false 0 65535 rest with
      | some n => .ok (.Voltage n.toNat)
      | none => .err .InvalidValue
    else if b = 37 then
      match fromStrRadix10 false 0 255 rest with
      | some n => .ok (.Percentage n.toNat)
      | none => .err .InvalidValue
    else .err .InvalidValue

/-- `enum AdjRequest`.  The `i16`/`i8` payloads are `Int`s; values a Rust
program can construct satisfy `wf` below. -/
inductive AdjRequest
  | Voltage (v : Int)
  | Percentage (v : Int)
deriving DecidableEq, Repr

/-- `AdjRequest::parse`.  `val[0]` dispatch: `b'v'` parses the tail as
`i16`, `b'%'` as `i8`; anything else is `InvalidValue`.  Empty value is
`MissingValue`. -/
def AdjRequest.parse (val : List Nat) : RustResult AdjRequest :=
  match val with
  | [] => .err .MissingValue
  | b :: rest =>
    if b = 118 then
      match fromStrRadix10 true (-32768) 32767 rest with
      | some n => .ok (.Voltage n)
      | none => .err .InvalidValue
    else if b = 37 then
      match fromStrRadix10 true (-128) 127 rest with
      | some n => .ok (.Percentage n)
      | none => .err .InvalidValue
    else .err .InvalidValue

/-- `enum Request`. -/
inductive Request
  | Get (r : GetRequest)
  | Set (r : SetRequest)
  | Adj (r : AdjRequest)
deriving DecidableEq, Repr

/-- `s.splitn(2, |b| *b == b' ')` on a byte slice: the prefix before the
first space, and, when a space exists, everything after it (not re-split). -/
def splitFirstSpace : List Nat → List Nat × Option (List Nat)
  | [] => ([], none)
  | b :: rest =>
    if b = 32 then ([], some rest)
    else
      let p := splitFirstSpace rest
      (b :: p.1, p.2)

/-- `Request::parse`.  (On a slice, `splitn(2, _)` always yields a first
element, so the dead `None => Empty` arm of the source never fires; `Empty`
is reached through the empty bare method word.) -/
def Request.parse (s : List Nat) : RustResult Request :=
  let p := splitFirstSpace s
  match p.2 with
  | some val =>
    if p.1 = asciiBytes "GET" then (GetRequest.parse val).map Request.Get
    else if p.1 = asciiBytes "SET" then (SetRequest.parse val).map Request.Set
    else if p.1 = asciiBytes "ADJ" then (AdjRequest.parse val).map Request.Adj
    else .err .UnknownRequestType
  | none =>
    if p.1 = asciiBytes "GET" ∨ p.1 = asciiBytes "SET" ∨ p.1 = asciiBytes "ADJ" then
      .err .MissingValue
    else if p.1 = [] then .err .Empty
    else .err .UnknownRequestType

/-- `Request::method`. -/
def Request.method : Request → String
  | .Get _ => "GET"
  | .Set _ => "SET"
  | .Adj _ => "ADJ"

/-! ## Rendering (`impl fmt::Display for Request`)

Rust's `Display` for machine integers prints the plain decimal form, with a
leading `-` for negative signed values and no `+` or padding.  We render it
by repeated division, structurally on a fuel argument (`n` itself bounds
the number of digits). -/

/-- Decimal digit bytes of `n`, most significant first; `[]` for `n = 0`.
`fuel ≥ n` guarantees enough iterations. -/
def natDecimalAux : Nat → Nat → List Nat
  | 0, _ => []
  | fuel + 1, n =>
    if n = 0 then [] else natDecimalAux fuel (n / 10) ++ [n % 10 + 48]

/-- Decimal ASCII rendering of a `Nat` (Rust `Display` for unsigned). -/
def natDecimal (n : Nat) : List Nat :=
  if n = 0 then [48] else natDecimalAux n n

/-- Decimal ASCII rendering of an `Int` (Rust `Display` for signed). -/
def intDecimal (i : Int) : List Nat :=
  if i < 0 then 45 :: natDecimal i.natAbs else natDecimal i.toNat

/-- The bytes written by `impl fmt::Display for Request`. -/
def Request.render : Request → List Nat
  | .Get r => asciiBytes "GET " ++ asciiBytes r.val_str
  | .Set (.Voltage v) => asciiBytes "SET v" ++ natDecimal v
  | .Set (.Percentage v) => asciiBytes "SET %" ++ natDecimal v
  | .Set .Auto => asciiBytes "SET a"
  | .Adj (.Voltage v) => asciiBytes "ADJ v" ++ intDecimal v
  | .Adj (.Percentage v) => asciiBytes "ADJ %" ++ intDecimal v

/-- Payload ranges enforced by the Rust machine types (`u16`, `u8`, `i16`,
`i8`): exactly the `Request` values constructible in the source. -/
def Request.wf : Request → Bool
  | .Get _ => true
  | .Set .Auto => true
  | .Set (.Voltage v) => v ≤ 65535
  | .Set (.Percentage v) => v ≤ 255
  | .Adj (.Voltage v) => -32768 ≤ v ∧ v ≤ 32767
  | .Adj (.Percentage v) => -128 ≤ v ∧ v ≤ 127


/-! ## Value of a run of digit bytes -/

/-- Value accumulated by the positive digit loop over digit bytes. -/
def bval (l : List Nat) (acc : Int) : Int :=
  l.foldl (fun (a : Int) (b : Nat) => a * 10 + ((b : Int) - 48)) acc

/-- Value accumulated by the negative digit loop over digit bytes. -/
def bvalN (l : List Nat) (acc : Int) : Int :=
  l.foldl (fun (a : Int) (b : Nat) => a * 10 - ((b : Int) - 48)) acc

lemma bval_nil (acc : Int) : bval [] acc = acc := rfl

lemma bval_cons (b : Nat) (l : List Nat) (acc : Int) :
    bval (b :: l) acc = bval l (acc * 10 + ((b : Int) - 48)) := rfl

lemma bvalN_cons (b : Nat) (l : List Nat) (acc : Int) :
    bvalN (b :: l) acc = bvalN l (acc * 10 - ((b : Int) - 48)) := rfl

lemma bval_append (l₁ l₂ : List Nat) (acc : Int) :
    bval (l₁ ++ l₂) acc = bval l₂ (bval l₁ acc) := by
  simp [bval, List.foldl_append]

lemma bval_mono (l : List Nat) (acc : Int) (hl : ∀ b ∈ l, 48 ≤ b)
    (hacc : 0 ≤ acc) : acc ≤ bval l acc := by
  induction l generalizing acc with
  | nil => simp [bval]
  | cons b rest ih =>
    have hb : 48 ≤ b := hl b (by simp)
    have h1 : acc ≤ acc * 10 + ((b : Int) - 48) := by omega
    have h2 : (0 : Int) ≤ acc * 10 + ((b : Int) - 48) := by omega
    calc acc ≤ acc * 10 + ((b : Int) - 48) := h1
      _ ≤ bval rest (acc * 10 + ((b : Int) - 48)) :=
          ih _ (fun c hc => hl c (by simp [hc])) h2
      _ = bval (b :: rest) acc := (bval_cons b rest acc).symm

lemma bvalN_anti (l : List Nat) (acc : Int) (hl : ∀ b ∈ l, 48 ≤ b)
    (hacc : acc ≤ 0) : bvalN l acc ≤ acc := by
  induction l generalizing acc with
  | nil => simp [bvalN]
  | cons b rest ih =>
    have hb : 48 ≤ b := hl b (by simp)
    have h1 : acc * 10 - ((b : Int) - 48) ≤ acc := by omega
    have h2 : acc * 10 - ((b : Int) - 48) ≤ 0 := by omega
    calc bvalN (b :: rest) acc = bvalN rest (acc * 10 - ((b : Int) - 48)) :=
          bvalN_cons b rest acc
      _ ≤ acc * 10 - ((b : Int) - 48) :=
          ih _ (fun c hc => hl c (by simp [hc])) h2
      _ ≤ acc := h1

lemma bvalN_eq_neg_bval (l : List Nat) (acc : Int) :
    bvalN l (-acc) = -(bval l acc) := by
  induction l generalizing acc with
  | nil => simp [bval, bvalN]
  | cons b rest ih =>
    rw [bvalN_cons, bval_cons]
    have h : -acc * 10 - ((b : Int) - 48) = -(acc * 10 + ((b : Int) - 48)) := by ring
    rw [h, ih]

/-- The positive digit loop succeeds on a run of digit bytes whose value
fits below `hi`, and returns that value. -/
lemma goI_pos_digits (lo hi : Int) (l : List Nat) (acc : Int)
    (hl : ∀ b ∈ l, 48 ≤ b ∧ b ≤ 57) (hlo : lo ≤ 0) (hacc : 0 ≤ acc)
    (hhi : bval l acc ≤ hi) : goI lo hi true l acc = some (bval l acc) := by
  induction l generalizing acc with
  | nil => simp [goI, bval]
  | cons b rest ih =>
    obtain ⟨hb1, hb2⟩ := hl b (by simp)
    have hrest : ∀ c ∈ rest, 48 ≤ c ∧ c ≤ 57 := fun c hc => hl c (by simp [hc])
    have hd : digitVal? b = some (b - 48) := by
      simp [digitVal?, hb1, hb2]
    have hnext : (0 : Int) ≤ acc * 10 + ((b : Int) - 48) := by omega
    have hcast : ((b - 48 : Nat) : Int) = (b : Int) - 48 := by omega
    have hvrest : bval (b :: rest) acc = bval rest (acc * 10 + ((b : Int) - 48)) :=
      bval_cons b rest acc
    have hle : acc * 10 + ((b : Int) - 48) ≤ bval (b :: rest) acc := by
      rw [hvrest]
      exact bval_mono rest _ (fun c hc => (hrest c hc).1) hnext
    have hm : ¬(acc * 10 < lo ∨ hi < acc * 10) := by
      push_neg
      constructor
      · omega
      · have : acc * 10 ≤ acc * 10 + ((b : Int) - 48) := by omega
        omega
    have hr : ¬(acc * 10 + ((b : Int) - 48) < lo ∨ hi < acc * 10 + ((b : Int) - 48)) := by
      push_neg
      constructor
      · omega
      · omega
    rw [goI, hd]
    simp only [hcast, hm, if_false, if_true, hr]
    rw [hvrest]
    exact ih _ hrest hnext (hvrest ▸ hhi)

/-- The negative digit loop succeeds on a run of digit bytes whose
(negated) value stays above `lo`, and returns that value. -/
lemma goI_neg_digits (lo hi : Int) (l : List Nat) (acc : Int)
    (hl : ∀ b ∈ l, 48 ≤ b ∧ b ≤ 57) (hhi : 0 ≤ hi) (hacc : acc ≤ 0)
    (hlo : lo ≤ bvalN l acc) : goI lo hi false l acc = some (bvalN l acc) := by
  induction l generalizing acc with
  | nil => simp [goI, bvalN]
  | cons b rest ih =>
    obtain ⟨hb1, hb2⟩ := hl b (by simp)
    have hrest : ∀ c ∈ rest, 48 ≤ c ∧ c ≤ 57 := fun c hc => hl c (by simp [hc])
    have hd : digitVal? b = some (b - 48) := by
      simp [digitVal?, hb1, hb2]
    have hnext : acc * 10 - ((b : Int) - 48) ≤ 0 := by omega
    have hcast : ((b - 48 : Nat) : Int) = (b : Int) - 48 := by omega
    have hvrest : bvalN (b :: rest) acc = bvalN rest (acc * 10 - ((b : Int) - 48)) :=
      bvalN_cons b rest acc
    have hge : bvalN (b :: rest) acc ≤ acc * 10 - ((b : Int) - 48) := by
      rw [hvrest]
      exact bvalN_anti rest _ (fun c hc => (hrest c hc).1) hnext
    have hm : ¬(acc * 10 < lo ∨ hi < acc * 10) := by
      push_neg
      constructor
      · omega
      · omega
    have hr : ¬(acc * 10 - ((b : Int) - 48) < lo ∨ hi < acc * 10 - ((b : Int) - 48)) := by
      push_neg
      constructor
      · omega
      · omega
    rw [goI, hd]
    simp only [hcast, hm, if_false, if_true, Bool.false_eq_true, hr]
    rw [hvrest]
    exact ih _ hrest hnext (hvrest ▸ hlo)

/-! ## Correctness of decimal rendering against the digit loop -/

lemma natDecimalAux_bytes (fuel n : Nat) :
    ∀ b ∈ natDecimalAux fuel n, 48 ≤ b ∧ b ≤ 57 := by
  induction fuel generalizing n with
  | zero => simp [natDecimalAux]
  | succ f ih =>
    intro b hb
    rw [natDecimalAux] at hb
    by_cases hn : n = 0
    · simp [hn] at hb
    · simp only [hn, if_false] at hb
      rcases List.mem_append.mp hb with h | h
      · exact ih _ b h
      · have : b = n % 10 + 48 := by simpa using h
        have : n % 10 < 10 := Nat.mod_lt _ (by omega)
        omega

lemma natDecimal_bytes (n : Nat) : ∀ b ∈ natDecimal n, 48 ≤ b ∧ b ≤ 57 := by
  rw [natDecimal]
  by_cases hn : n = 0
  · simp [hn]
  · simp only [hn, if_false]
    exact natDecimalAux_bytes n n

lemma natDecimal_ne_nil (n : Nat) : natDecimal n ≠ [] := by
  rw [natDecimal]
  by_cases hn : n = 0
  · simp [hn]
  · simp only [hn, if_false]
    match n, hn with
    | m + 1, _ =>
      rw [natDecimalAux]
      simp

lemma bval_natDecimalAux (fuel n : Nat) (h : n ≤ fuel) :
    bval (natDecimalAux fuel n) 0 = n := by
  induction fuel generalizing n with
  | zero =>
    have : n = 0 := by omega
    simp [this, natDecimalAux, bval]
  | succ f ih =>
    rw [natDecimalAux]
    by_cases hn : n = 0
    · simp [hn, bval]
    · simp only [hn, if_false]
      rw [bval_append]
      have hdiv : n / 10 ≤ f := by omega
      rw [ih _ hdiv]
      simp only [bval, List.foldl_cons, List.foldl_nil]
      push_cast
      omega

lemma bval_natDecimal (n : Nat) : bval (natDecimal n) 0 = n := by
  rw [natDecimal]
  by_cases hn : n = 0
  · simp [hn, bval]
  · simp only [hn, if_false]
    exact bval_natDecimalAux n n (le_refl n)

/-- `from_str_radix` at radix 10 accepts the decimal rendering of any `n`
within the type's range and returns `n` (for both signed and unsigned
types: the rendering starts with a digit, not a sign). -/
lemma fromStrRadix10_natDecimal (signed : Bool) (lo hi : Int) (n : Nat)
    (hlo : lo ≤ 0) (hhi : (n : Int) ≤ hi) :
    fromStrRadix10 signed lo hi (natDecimal n) = some (n : Int) := by
  obtain ⟨c, rest, hcons⟩ := List.exists_cons_of_ne_nil (natDecimal_ne_nil n)
  have hc : 48 ≤ c ∧ c ≤ 57 := natDecimal_bytes n c (by rw [hcons]; simp)
  have hc43 : c ≠ 43 := by omega
  have hc45 : c ≠ 45 := by omega
  rw [hcons, fromStrRadix10]
  simp only [hc43, hc45, false_and, if_false, false_or, or_self]
  rw [← hcons]
  rw [goI_pos_digits lo hi _ 0 (natDecimal_bytes n) hlo (le_refl 0)
    (by rw [bval_natDecimal]; exact hhi)]
  rw [bval_natDecimal]

/-- `from_str_radix` at radix 10 on a signed type accepts `-` followed by
the decimal rendering of a magnitude `m` with `-m` in range, returning
`-m`. -/
lemma fromStrRadix10_neg_natDecimal (lo hi : Int) (m : Nat)
    (hlo : lo ≤ -(m : Int)) (hhi : 0 ≤ hi) :
    fromStrRadix10 true lo hi (45 :: natDecimal m) = some (-(m : Int)) := by
  have hne := natDecimal_ne_nil m
  have hb : bvalN (natDecimal m) 0 = -(m : Int) := by
    have h0 : (0 : Int) = -0 := by norm_num
    rw [h0, bvalN_eq_neg_bval, bval_natDecimal]
  rw [fromStrRadix10]
  simp only [hne, and_false, if_false, if_true, and_true]
  have h45 : (45 : Nat) ≠ 43 := by omega
  simp only [h45, if_false, if_true]
  rw [goI_neg_digits lo hi _ 0 (natDecimal_bytes m) hhi (le_refl 0)
    (by rw [hb]; exact hlo)]
  rw [hb]

/-! ## Sub-parser round trips -/

lemma set_parse_voltage (v : Nat) (hv : v ≤ 65535) :
    SetRequest.parse (118 :: natDecimal v) = .ok (.Voltage v) := by
  rw [SetRequest.parse]
  have h97 : ¬((118 : Nat) = 97 ∧ natDecimal v = []) := by
    intro h
    omega
  simp only [h97, if_false, if_true]
  rw [fromStrRadix10_natDecimal false 0 65535 v (le_refl 0) (by exact_mod_cast hv)]
  simp

lemma set_parse_percentage (v : Nat) (hv : v ≤ 255) :
    SetRequest.parse (37 :: natDecimal v) = .ok (.Percentage v) := by
  rw [SetRequest.parse]
  have h97 : ¬((37 : Nat) = 97 ∧ natDecimal v = []) := by
    intro h
    omega
  have h118 : (37 : Nat) ≠ 118 := by omega
  simp only [h97, h118, if_false, if_true]
  rw [fromStrRadix10_natDecimal false 0 255 v (le_refl 0) (by exact_mod_cast hv)]
  simp

lemma adj_parse_voltage (v : Int) (h1 : -32768 ≤ v) (h2 : v ≤ 32767) :
    AdjRequest.parse (118 :: intDecimal v) = .ok (.Voltage v) := by
  rw [AdjRequest.parse, intDecimal]
  by_cases hv : v < 0
  · simp only [hv, if_true, if_false]
    rw [fromStrRadix10_neg_natDecimal (-32768) 32767 v.natAbs (by omega) (by omega)]
    have : -((v.natAbs : Nat) : Int) = v := by omega
    rw [this]
  · simp only [hv, if_false]
    rw [fromStrRadix10_natDecimal true (-32768) 32767 v.toNat (by omega) (by omega)]
    have : ((v.toNat : Nat) : Int) = v := by omega
    rw [this]
    simp

lemma adj_parse_percentage (v : Int) (h1 : -128 ≤ v) (h2 : v ≤ 127) :
    AdjRequest.parse (37 :: intDecimal v) = .ok (.Percentage v) := by
  rw [AdjRequest.parse, intDecimal]
  have h118 : (37 : Nat) ≠ 118 := by omega
  by_cases hv : v < 0
  · simp only [hv, h118, if_true, if_false]
    rw [fromStrRadix10_neg_natDecimal (-128) 127 v.natAbs (by omega) (by omega)]
    have : -((v.natAbs : Nat) : Int) = v := by omega
    rw [this]
  · simp only [hv, h118, if_false]
    rw [fromStrRadix10_natDecimal true (-128) 127 v.toNat (by omega) (by omega)]
    have : ((v.toNat : Nat) : Int) = v := by omega
    rw [this]
    simp

/-! ## Splitting on the first space, and method dispatch -/

lemma splitFirstSpace_no_space (w : List Nat) (hw : 32 ∉ w) :
    splitFirstSpace w = (w, none) := by
  induction w with
  | nil => rfl
  | cons b rest ih =>
    have hb : b ≠ 32 := fun h => hw (by simp [h])
    rw [splitFirstSpace]
    simp only [hb, if_false]
    rw [ih (fun h => hw (by simp [h]))]

lemma splitFirstSpace_append (w v : List Nat) (hw : 32 ∉ w) :
    splitFirstSpace (w ++ 32 :: v) = (w, some v) := by
  induction w with
  | nil => simp [splitFirstSpace]
  | cons b rest ih =>
    have hb : b ≠ 32 := fun h => hw (by simp [h])
    rw [List.cons_append, splitFirstSpace]
    simp only [hb, if_false]
    rw [ih (fun h => hw (by simp [h]))]

/-- `Request::parse` on `word ++ " " ++ value` (the word itself space-free)
dispatches the whole value to the sub-parser selected by the word. -/
lemma request_parse_append (w v : List Nat) (hw : 32 ∉ w) :
    Request.parse (w ++ 32 :: v) =
      if w = asciiBytes "GET" then (GetRequest.parse v).map Request.Get
      else if w = asciiBytes "SET" then (SetRequest.parse v).map Request.Set
      else if w = asciiBytes "ADJ" then (AdjRequest.parse v).map Request.Adj
      else .err .UnknownRequestType := by
  rw [Request.parse, splitFirstSpace_append w v hw]

/-- `Request::parse` on a space-free input: the whole input is the bare
method word. -/
lemma request_parse_bare (w : List Nat) (hw : 32 ∉ w) :
    Request.parse w =
      if w = asciiBytes "GET" ∨ w = asciiBytes "SET" ∨ w = asciiBytes "ADJ" then
        .err .MissingValue
      else if w = [] then .err .Empty
      else .err .UnknownRequestType := by
  rw [Request.parse, splitFirstSpace_no_space w hw]

lemma ascii_GET : asciiBytes "GET" = [71, 69, 84] := by decide

lemma ascii_SET : asciiBytes "SET" = [83, 69, 84] := by decide

lemma ascii_ADJ : asciiBytes "ADJ" = [65, 68, 74] := by decide

lemma request_parse_GET (v : List Nat) :
    Request.parse ([71, 69, 84] ++ 32 :: v) = (GetRequest.parse v).map Request.Get := by
  rw [request_parse_append _ _ (by decide), if_pos (by decide)]

lemma request_parse_SET (v : List Nat) :
    Request.parse ([83, 69, 84] ++ 32 :: v) = (SetRequest.parse v).map Request.Set := by
  rw [request_parse_append _ _ (by decide), if_neg (by decide), if_pos (by decide)]

lemma request_parse_ADJ (v : List Nat) :
    Request.parse ([65, 68, 74] ++ 32 :: v) = (AdjRequest.parse v).map Request.Adj := by
  rw [request_parse_append _ _ (by decide), if_neg (by decide), if_neg (by decide),
    if_pos (by decide)]

lemma rustResult_map_eq_err {α β : Type} (f : α → β) (x : RustResult α) (e : Error) :
    x.map f = .err e ↔ x = .err e := by
  cases x <;> simp [RustResult.map]

lemma get_parse_ne_Empty (val : List Nat) : GetRequest.parse val ≠ .err .Empty := by
  rw [GetRequest.parse]
  split_ifs <;> simp

lemma set_parse_ne_Empty (val : List Nat) : SetRequest.parse val ≠ .err .Empty := by
  match val with
  | [] => simp [SetRequest.parse]
  | b :: rest =>
    simp only [SetRequest.parse]
    split_ifs with h1 h2 h3
    · simp
    · cases fromStrRadix10 false 0 65535 rest <;> simp
    · cases fromStrRadix10 false 0 255 rest <;> simp
    · simp

lemma adj_parse_ne_Empty (val : List Nat) : AdjRequest.parse val ≠ .err .Empty := by
  match val with
  | [] => simp [AdjRequest.parse]
  | b :: rest =>
    simp only [AdjRequest.parse]
    split_ifs with h1 h2
    · cases fromStrRadix10 true (-32768) 32767 rest <;> simp
    · cases fromStrRadix10 true (-128) 127 rest <;> simp
    · simp

lemma splitFirstSpace_cons_ne (b : Nat) (rest : List Nat) (hb : b ≠ 32) :
    splitFirstSpace (b :: rest) =
      (b :: (splitFirstSpace rest).1, (splitFirstSpace rest).2) := by
  rw [splitFirstSpace]
  simp [hb]

lemma request_parse_space_cons (v : List Nat) :
    Request.parse (32 :: v) = .err .UnknownRequestType := by
  have hs : splitFirstSpace (32 :: v) = ([], some v) := by
    rw [splitFirstSpace]
    simp
  simp [Request.parse, hs, ascii_GET, ascii_SET, ascii_ADJ]

/-- `from_str_radix` at radix 10 accepts a leading `+` followed by the
decimal rendering of an in-range `n`, returning `n` (any signedness). -/
lemma fromStrRadix10_plus_natDecimal (signed : Bool) (lo hi : Int) (n : Nat)
    (hlo : lo ≤ 0) (hhi : (n : Int) ≤ hi) :
    fromStrRadix10 signed lo hi (43 :: natDecimal n) = some (n : Int) := by
  rw [fromStrRadix10]
  simp only [natDecimal_ne_nil n, and_false, if_false, if_true]
  rw [goI_pos_digits lo hi _ 0 (natDecimal_bytes n) hlo (le_refl 0)
    (by rw [bval_natDecimal]; exact hhi)]
  rw [bval_natDecimal]

lemma set_parse_voltage_plus (v : Nat) (hv : v ≤ 65535) :
    SetRequest.parse (118 :: 43 :: natDecimal v) = .ok (.Voltage v) := by
  simp only [SetRequest.parse]
  have h97 : ¬((118 : Nat) = 97 ∧ 43 :: natDecimal v = []) := by
    intro h
    omega
  simp only [h97, if_false, if_true]
  rw [fromStrRadix10_plus_natDecimal false 0 65535 v (le_refl 0) (by exact_mod_cast hv)]
  simp

lemma set_parse_percentage_plus (v : Nat) (hv : v ≤ 255) :
    SetRequest.parse (37 :: 43 :: natDecimal v) = .ok (.Percentage v) := by
  simp only [SetRequest.parse]
  have h97 : ¬((37 : Nat) = 97 ∧ 43 :: natDecimal v = []) := by
    intro h
    omega
  have h118 : (37 : Nat) ≠ 118 := by omega
  simp only [h97, h118, if_false, if_true]
  rw [fromStrRadix10_plus_natDecimal false 0 255 v (le_refl 0) (by exact_mod_cast hv)]
  simp

/-! ## The claims -/

/-- C1: Round-trip law — every constructible `Request` (each `Get` variant,
each `Set` variant including `Auto` and any in-range `u16`/`u8` payload, and
each `Adj` variant with any in-range `i16`/`i8` delta) parses back from its
`Display` rendering to an equal `Request`. -/
theorem c1_request_roundtrip (r : Request) (h : r.wf = true) :
    Request.parse r.render = .ok r := by
  cases r with
  | Get g => cases g <;> decide
  | Set s =>
    cases s with
    | Auto => decide
    | Voltage v =>
      have hv : v ≤ 65535 := by simpa [Request.wf] using h
      have hrw : (Request.Set (SetRequest.Voltage v)).render =
          [83, 69, 84] ++ 32 :: (118 :: natDecimal v) := rfl
      rw [hrw, request_parse_SET, set_parse_voltage v hv]
      rfl
    | Percentage v =>
      have hv : v ≤ 255 := by simpa [Request.wf] using h
      have hrw : (Request.Set (SetRequest.Percentage v)).render =
          [83, 69, 84] ++ 32 :: (37 :: natDecimal v) := rfl
      rw [hrw, request_parse_SET, set_parse_percentage v hv]
      rfl
  | Adj a =>
    cases a with
    | Voltage v =>
      have hv : -32768 ≤ v ∧ v ≤ 32767 := by simpa [Request.wf] using h
      have hrw : (Request.Adj (AdjRequest.Voltage v)).render =
          [65, 68, 74] ++ 32 :: (118 :: intDecimal v) := rfl
      rw [hrw, request_parse_ADJ, adj_parse_voltage v hv.1 hv.2]
      rfl
    | Percentage v =>
      have hv : -128 ≤ v ∧ v ≤ 127 := by simpa [Request.wf] using h
      have hrw : (Request.Adj (AdjRequest.Percentage v)).render =
          [65, 68, 74] ++ 32 :: (37 :: intDecimal v) := rfl
      rw [hrw, request_parse_ADJ, adj_parse_percentage v hv.1 hv.2]
      rfl

/-- Witness for C1 at the concrete request `ADJ v-32768`. -/
theorem c1_request_roundtrip_witness :
    (Request.Adj (AdjRequest.Voltage (-32768))).wf = true ∧
    Request.parse ((Request.Adj (AdjRequest.Voltage (-32768))).render) =
      .ok (Request.Adj (AdjRequest.Voltage (-32768))) :=
  ⟨by decide, c1_request_roundtrip (Request.Adj (AdjRequest.Voltage (-32768))) (by decide)⟩

/-- C2: Dispatch precedence of `Request::parse` — the empty input is
`Empty`; a recognized bare method word is `MissingValue`; any other bare
word is `UnknownRequestType`; an unrecognized method word followed by a
space and a value is `UnknownRequestType` (never `MissingValue` or
`InvalidValue`). -/
theorem c2_dispatch_precedence :
    Request.parse [] = .err .Empty ∧
    Request.parse (asciiBytes "GET") = .err .MissingValue ∧
    Request.parse (asciiBytes "SET") = .err .MissingValue ∧
    Request.parse (asciiBytes "ADJ") = .err .MissingValue ∧
    (∀ w : List Nat, w ≠ [] → 32 ∉ w →
      w ≠ asciiBytes "GET" → w ≠ asciiBytes "SET" → w ≠ asciiBytes "ADJ" →
      Request.parse w = .err .UnknownRequestType) ∧
    (∀ w v : List Nat, 32 ∉ w →
      w ≠ asciiBytes "GET" → w ≠ asciiBytes "SET" → w ≠ asciiBytes "ADJ" →
      Request.parse (w ++ 32 :: v) = .err .UnknownRequestType) := by
  refine ⟨by decide, by decide, by decide, by decide, ?_, ?_⟩
  · intro w hne hsp h1 h2 h3
    rw [request_parse_bare w hsp]
    rw [if_neg (by simp [h1, h2, h3]), if_neg hne]
  · intro w v hsp h1 h2 h3
    rw [request_parse_append w v hsp]
    rw [if_neg h1, if_neg h2, if_neg h3]

/-- Witness for C2 at the concrete inputs `LOL` and `LOL x`. -/
theorem c2_dispatch_precedence_witness :
    Request.parse (asciiBytes "LOL") = .err .UnknownRequestType ∧
    Request.parse (asciiBytes "LOL" ++ 32 :: asciiBytes "x") = .err .UnknownRequestType :=
  ⟨c2_dispatch_precedence.2.2.2.2.1 (asciiBytes "LOL")
      (by decide) (by decide) (by decide) (by decide) (by decide),
    c2_dispatch_precedence.2.2.2.2.2 (asciiBytes "LOL") (asciiBytes "x")
      (by decide) (by decide) (by decide) (by decide)⟩

/-- C3 counterexample: the one-byte whitespace-only input is parsed as
`UnknownRequestType` (empty method word with a remainder present), not
`Empty` as the claim states. -/
theorem c3_whitespace_counterexample :
    Request.parse [32] = .err .UnknownRequestType ∧
    Request.parse [32] ≠ .err .Empty := by
  decide

/-- C3 amended: `Request::parse` returns `Err(Empty)` exactly for the
zero-length input; an input beginning with a space (whitespace before any
content) has an empty method word and a present remainder, and returns
`Err(UnknownRequestType)`. -/
theorem c3_empty_exactly_on_empty_input :
    (∀ s : List Nat, Request.parse s = .err .Empty ↔ s = []) ∧
    (∀ v : List Nat, Request.parse (32 :: v) = .err .UnknownRequestType) := by
  refine ⟨?_, request_parse_space_cons⟩
  intro s
  constructor
  · intro h
    by_contra hne
    obtain ⟨b, rest, rfl⟩ := List.exists_cons_of_ne_nil hne
    by_cases hb : b = 32
    · subst hb
      rw [request_parse_space_cons rest] at h
      exact absurd h (by decide)
    · rw [Request.parse, splitFirstSpace_cons_ne b rest hb] at h
      cases hsnd : (splitFirstSpace rest).2 with
      | some val =>
        rw [hsnd] at h
        simp only [] at h
        split_ifs at h
        · exact get_parse_ne_Empty val ((rustResult_map_eq_err _ _ _).mp h)
        · exact set_parse_ne_Empty val ((rustResult_map_eq_err _ _ _).mp h)
        · exact adj_parse_ne_Empty val ((rustResult_map_eq_err _ _ _).mp h)
        · exact absurd h (by decide)
      | none =>
        rw [hsnd] at h
        simp only [] at h
        split_ifs at h with h1 h2
        · exact absurd h (by decide)
        · simp at h2
        · exact absurd h (by decide)
  · intro h
    subst h
    decide

/-- C4: Numeric boundary behaviour of `SET`/`ADJ` values at the `u16`,
`u8` and `i16` type limits: the extreme in-range values parse, one beyond
either bound is `InvalidValue`. -/
theorem c4_numeric_boundaries :
    Request.parse (asciiBytes "SET v0") = .ok (.Set (.Voltage 0)) ∧
    Request.parse (asciiBytes "SET v65535") = .ok (.Set (.Voltage 65535)) ∧
    Request.parse (asciiBytes "SET v65536") = .err .InvalidValue ∧
    Request.parse (asciiBytes "SET %255") = .ok (.Set (.Percentage 255)) ∧
    Request.parse (asciiBytes "SET %256") = .err .InvalidValue ∧
    Request.parse (asciiBytes "ADJ v-32768") = .ok (.Adj (.Voltage (-32768))) ∧
    Request.parse (asciiBytes "ADJ v32767") = .ok (.Adj (.Voltage 32767)) ∧
    Request.parse (asciiBytes "ADJ v-32769") = .err .InvalidValue ∧
    Request.parse (asciiBytes "ADJ v32768") = .err .InvalidValue := by
  decide

/-- C5: Sign handling — `ADJ` deltas accept a leading `+` (and leading
zeros); `SET v-1` is `InvalidValue` because the unsigned field rejects a
leading `-`; and a leading `+` on a `SET` numeric value is accepted
whenever the underlying unsigned parser accepts it (here: for every
in-range rendered value). -/
theorem c5_sign_handling :
    Request.parse (asciiBytes "ADJ %+55") = .ok (.Adj (.Percentage 55)) ∧
    Request.parse (asciiBytes "ADJ v+02") = .ok (.Adj (.Voltage 2)) ∧
    Request.parse (asciiBytes "SET v-1") = .err .InvalidValue ∧
    (∀ n : Nat, n ≤ 65535 →
      Request.parse (asciiBytes "SET v+" ++ natDecimal n) = .ok (.Set (.Voltage n))) ∧
    (∀ n : Nat, n ≤ 255 →
      Request.parse (asciiBytes "SET %+" ++ natDecimal n) = .ok (.Set (.Percentage n))) := by
  refine ⟨by decide, by decide, by decide, ?_, ?_⟩
  · intro n hn
    have hrw : asciiBytes "SET v+" ++ natDecimal n =
        [83, 69, 84] ++ 32 :: (118 :: 43 :: natDecimal n) := rfl
    rw [hrw, request_parse_SET, set_parse_voltage_plus n hn]
    rfl
  · intro n hn
    have hrw : asciiBytes "SET %+" ++ natDecimal n =
        [83, 69, 84] ++ 32 :: (37 :: 43 :: natDecimal n) := rfl
    rw [hrw, request_parse_SET, set_parse_percentage_plus n hn]
    rfl

/-- Witness for C5 at the concrete values `SET v+500` and `SET %+93`. -/
theorem c5_sign_handling_witness :
    Request.parse (asciiBytes "SET v+" ++ natDecimal 500) = .ok (.Set (.Voltage 500)) ∧
    Request.parse (asciiBytes "SET %+" ++ natDecimal 93) = .ok (.Set (.Percentage 93)) :=
  ⟨c5_sign_handling.2.2.2.1 500 (by decide), c5_sign_handling.2.2.2.2 93 (by decide)⟩

/-- C6: Token bijection for `GetRequest` — parsing the canonical token of
each variant returns that variant, and the token map is injective (no two
variants share a token). -/
theorem c6_get_token_bijection :
    (∀ v : GetRequest, GetRequest.parse (asciiBytes v.val_str) = .ok v) ∧
    (∀ v w : GetRequest, v.val_str = w.val_str ↔ v = w) := by
  constructor
  · intro v
    cases v <;> decide
  · intro v w
    cases v <;> cases w <;> decide

/-- C7: Auto exactness — `SetRequest::parse` returns `Auto` exactly on the
single byte `a`; an `a` followed by anything is `InvalidValue`, never
`Auto`. -/
theorem c7_auto_exactness :
    (∀ val : List Nat, SetRequest.parse val = .ok .Auto ↔ val = [97]) ∧
    (∀ (b : Nat) (rest : List Nat),
      SetRequest.parse (97 :: b :: rest) = .err .InvalidValue) := by
  constructor
  · intro val
    constructor
    · intro h
      match val with
      | [] => simp [SetRequest.parse] at h
      | b :: rest =>
        simp only [SetRequest.parse] at h
        split_ifs at h with h1 h2 h3
        · obtain ⟨rfl, rfl⟩ := h1
          rfl
        · cases hfs : fromStrRadix10 false 0 65535 rest <;> rw [hfs] at h <;> simp at h
        · cases hfs : fromStrRadix10 false 0 255 rest <;> rw [hfs] at h <;> simp at h
    · intro h
      subst h
      decide
  · intro b rest
    simp [SetRequest.parse]

/-- C8: First-space split — `Request::parse` splits only at the first
ASCII space; the whole tail (spaces included) goes unmodified to the
sub-parser, so `GET a b` runs `GetRequest::parse` on `a b` and `GET  %`
runs it on ` %` (both `InvalidValue`). -/
theorem c8_first_space_split :
    (∀ v : List Nat, Request.parse (asciiBytes "GET " ++ v) =
      (GetRequest.parse v).map Request.Get) ∧
    (∀ v : List Nat, Request.parse (asciiBytes "SET " ++ v) =
      (SetRequest.parse v).map Request.Set) ∧
    (∀ v : List Nat, Request.parse (asciiBytes "ADJ " ++ v) =
      (AdjRequest.parse v).map Request.Adj) ∧
    Request.parse (asciiBytes "GET a b") = .err .InvalidValue ∧
    GetRequest.parse (asciiBytes "a b") = .err .InvalidValue ∧
    Request.parse (asciiBytes "GET  %") = .err .InvalidValue ∧
    GetRequest.parse (asciiBytes " %") = .err .InvalidValue := by
  exact ⟨request_parse_GET, request_parse_SET, request_parse_ADJ,
    by decide, by decide, by decide, by decide⟩

/-- C9: Present-but-empty remainder — a known method word followed by one
trailing space delegates the empty value to the sub-parser: `GET ` is
`InvalidValue`, `SET ` and `ADJ ` are `MissingValue`. -/
theorem c9_trailing_space :
    Request.parse (asciiBytes "GET ") = (GetRequest.parse []).map Request.Get ∧
    Request.parse (asciiBytes "SET ") = (SetRequest.parse []).map Request.Set ∧
    Request.parse (asciiBytes "ADJ ") = (AdjRequest.parse []).map Request.Adj ∧
    Request.parse (asciiBytes "GET ") = .err .InvalidValue ∧
    Request.parse (asciiBytes "SET ") = .err .MissingValue ∧
    Request.parse (asciiBytes "ADJ ") = .err .MissingValue := by
  decide

/-- C10: Totality — on every byte sequence whatsoever, `Request::parse`
returns either `Ok` of some `Request` or exactly one of the four error
variants; the modelled `from_str_radix` inspects raw bytes, so non-ASCII
tails after `v`/`%` simply fail the digit test. -/
theorem c10_parse_total (s : List Nat) :
    (∃ r : Request, Request.parse s = .ok r) ∨
    Request.parse s = .err .Empty ∨
    Request.parse s = .err .UnknownRequestType ∨
    Request.parse s = .err .MissingValue ∨
    Request.parse s = .err .InvalidValue := by
  cases h : Request.parse s with
  | ok r => exact Or.inl ⟨r, rfl⟩
  | err e => cases e <;> simp [h]

end Fcp
